import Mathlib

/-!
# Verification of the goparsify literal scanners (`literals.go`)

A shallow embedding of `literals.go` from `db48x/goparsify`.  Source text is a
`List Char` (one entry per code point; `utf8.DecodeRuneInString` therefore
always yields size 1 on a nonempty suffix, and byte offsets become code-point
offsets, which preserves every positional comparison the claims make).  The
shared scan state (`State`, its `Pos` cursor and `Error` sink) and the
`ErrorHere` recorder live outside the provided source; `State.errorHere` below
is modelled from the spec.  Everything else is translated directly from
`literals.go`.
-/

namespace Goparsify

/-- Go slice `input[a:b]`. -/
def strSlice (input : List Char) (a b : Nat) : List Char :=
  (input.drop a).take (b - a)

/-- Go map lookup `m[r]` for the small `map[rune]rune` tables (no table has a
duplicate key, so association-list order is immaterial). -/
def mapLookup (m : List (Char × Char)) (r : Char) : Option Char :=
  match m.find? (fun p => p.1 == r) with
  | some p => some p.2
  | none => none

/-- `utf8.DecodeRuneInString` on a suffix: on the empty string Go returns
`(RuneError, 0)`; otherwise the first code point with size 1 in this
per-code-point model. -/
def decodeRune (l : List Char) : Char × Nat :=
  match l with
  | [] => (Char.ofNat 0xFFFD, 0)
  | c :: _ => (c, 1)

/-- `bytes.Buffer.WriteRune`: an invalid rune (here only the surrogate range,
since `unhex` of four digits is at most `0xFFFF`) is written as `U+FFFD`. -/
def goWriteRune (v : Nat) : Char :=
  if v.isValidChar then Char.ofNat v else Char.ofNat 0xFFFD

/-- One hex digit, as in the `switch` of `unhex`. -/
def unhexDigit (c : Char) : Option Nat :=
  if '0' ≤ c ∧ c ≤ '9' then some (c.toNat - '0'.toNat)
  else if 'a' ≤ c ∧ c ≤ 'f' then some (c.toNat - 'a'.toNat + 10)
  else if 'A' ≤ c ∧ c ≤ 'F' then some (c.toNat - 'A'.toNat + 10)
  else none

/-- `unhex` from `literals.go`: `v <<= 4; v |= digit` over the string; since
the accumulator is always a multiple of 16 when the digit is or-ed in, this is
`v * 16 + digit`. -/
def unhex (l : List Char) : Option Nat :=
  l.foldl (fun acc c => acc.bind fun v => (unhexDigit c).map fun d => v * 16 + d)
    (some 0)

/-- The error sink: `ps.Error.expected` and `ps.Error.pos`. -/
structure PError where
  expected : String
  pos : Nat
  deriving DecidableEq, Repr

/-- The shared scan state (`Input`, `Pos`, `Error`).  The whitespace hook
`ps.WS` is out of scope per the spec (external policy) and is modelled as the
identity, so `ps.WS(ps)` calls vanish. -/
structure State where
  input : List Char
  pos : Nat
  error : PError
  deriving DecidableEq, Repr

/-- Modelled from the spec: the package's `State.ErrorHere` (recording an
expectation at the current cursor, missing from the provided source) combined
with the spec's ErrorSink rule: "later failures at positions at or beyond the
current furthest position overwrite it; earlier failures are discarded". -/
def State.errorHere (ps : State) (expected : String) : State :=
  if ps.error.pos ≤ ps.pos then { ps with error := ⟨expected, ps.pos⟩ } else ps

/-- The payload of `Result.Result` as set by `NumberLit`: either untouched,
an `int64`, or a `float64`.  Floats are modelled as the exact decimal value
(a rational); see `goParseFloat`. -/
inductive GoValue where
  | unset
  | int (i : Int)
  | float (q : ℚ)
  deriving DecidableEq, Repr

/-- The parse-tree node (`Result` in Go): `Start`/`End`, the `Token` text, the
numeric `Result` payload, and the `Child` list. -/
inductive Result where
  | mk (start stop : Nat) (token : List Char) (value : GoValue) (child : List Result)

def Result.start : Result → Nat
  | .mk s _ _ _ _ => s

def Result.stop : Result → Nat
  | .mk _ e _ _ _ => e

def Result.token : Result → List Char
  | .mk _ _ t _ _ => t

def Result.value : Result → GoValue
  | .mk _ _ _ v _ => v

def Result.child : Result → List Result
  | .mk _ _ _ _ c => c

def Result.setStart : Result → Nat → Result
  | .mk _ e t v c, s => .mk s e t v c

def Result.setToken : Result → List Char → Result
  | .mk s e _ v c, t => .mk s e t v c

def Result.setChild : Result → List Result → Result
  | .mk s e t v _, c => .mk s e t v c

/-- A fresh node, as handed to a parser by the combinator engine. -/
def emptyResult : Result := .mk 0 0 [] .unset []

/-- Outcome of the scan loop of `stringImpl`: success carries the token and
the new cursor; `errHere` stands for the `ps.ErrorHere(string(closer))` exits
(trailing backslash, end of input); `errAt` stands for the two direct
`ps.Error.expected/pos` assignments of the `\u` arm. -/
inductive ScanOut where
  | ok (token : List Char) (pos : Nat)
  | errHere (expected : String)
  | errAt (expected : String) (pos : Nat)
  deriving DecidableEq, Repr

/-- The `for end < inputLen` loop of `stringImpl`, with the loop variable `e`
(`end` in Go) and the lazily allocated buffer made explicit.  Each iteration
advances `e` by at least one, so a fuel of `input.length + 1 - e` (supplied by
`stringImplGo`) is never exhausted; the fuel-0 value coincides with the
end-of-input exit.  Sizes of decoded runes are 1 in the per-code-point model,
so Go's `end+size` is `e+1`, `end+size+s` is `e+2`, and the hex window is
`input[e+2 : e+6]` guarded by `end+size+s+4 >= inputLen`, i.e.
`input.length ≤ e+6`. -/
def scanLoop (input : List Char) (start : Nat) (closer : Char)
    (escapes : List (Char × Char)) : Nat → Option (List Char) → Nat → ScanOut
  | 0, _, _ => .errHere (String.singleton closer)
  | fuel + 1, buf, e =>
    if e < input.length then
      let current := input.getD e (Char.ofNat 0)
      if current = '\\' then
        if input.length ≤ e + 1 then .errHere (String.singleton closer)
        else
          let b := buf.getD (strSlice input start e)
          let c := input.getD (e + 1) (Char.ofNat 0)
          if c = 'u' then
            if input.length ≤ e + 6 then .errAt "[a-f0-9]\x7b4\x7d" (e + 2)
            else
              match unhex (strSlice input (e + 2) (e + 6)) with
              | none => .errAt "[a-f0-9]" (e + 2)
              | some v =>
                scanLoop input start closer escapes fuel
                  (some (b ++ [goWriteRune v])) (e + 6)
          else
            let b :=
              if c = closer then b ++ [c]
              else
                match mapLookup escapes c with
                | some rep => b ++ [rep]
                | none => b ++ ['\\', c]
            scanLoop input start closer escapes fuel (some b) (e + 2)
      else if current = closer then
        match buf with
        | none => .ok (strSlice input start e) (e + 1)
        | some b => .ok b (e + 1)
      else
        scanLoop input start closer escapes fuel
          (buf.map (fun b => b ++ [current])) (e + 1)
    else .errHere (String.singleton closer)

/-- The scan loop entered at buffer state `buf` and offset `e`. -/
def stringImplGo (input : List Char) (start : Nat) (closer : Char)
    (escapes : List (Char × Char)) (buf : Option (List Char)) (e : Nat) : ScanOut :=
  scanLoop input start closer escapes (input.length + 1 - e) buf e

/-- `stringImpl`: runs the loop from `node.Start` with no buffer, then applies
the exit actions: on success set `ps.Pos` past the closer and `node.Token`
(raw slice when no buffer was allocated, buffer contents otherwise); on the
`ErrorHere` exits record via the sink; on the `\u` exits assign
`ps.Error` directly (unconditionally), as the source does. -/
def stringImpl (ps : State) (node : Result) (closer : Char)
    (escapes : List (Char × Char)) : State × Result × Bool :=
  match stringImplGo ps.input node.start closer escapes none node.start with
  | .ok tok p => ({ ps with pos := p }, node.setToken tok, true)
  | .errHere exp => (ps.errorHere exp, node, false)
  | .errAt exp p => ({ ps with error := ⟨exp, p⟩ }, node, false)

/-- The segment scan starting at offset `e` runs to end of input without
meeting an unescaped closer.  This mirrors the scanner's step relation: each
step is an ordinary code point (neither backslash nor closer, advance one), a
non-`u` escape (advance two — this is how an escaped closer fails to
terminate the literal), or an in-bounds decodable `\u` escape (advance six),
until the offset passes the input or only a trailing backslash remains. -/
inductive ReachesEnd (input : List Char) (closer : Char) : Nat → Prop where
  | atEnd (e : Nat) : input.length ≤ e → ReachesEnd input closer e
  | trailingBackslash (e : Nat) :
      e < input.length → input.getD e (Char.ofNat 0) = '\\' →
      input.length ≤ e + 1 → ReachesEnd input closer e
  | ordinary (e : Nat) :
      e < input.length → input.getD e (Char.ofNat 0) ≠ '\\' →
      input.getD e (Char.ofNat 0) ≠ closer →
      ReachesEnd input closer (e + 1) → ReachesEnd input closer e
  | escape (e : Nat) :
      e + 1 < input.length → input.getD e (Char.ofNat 0) = '\\' →
      input.getD (e + 1) (Char.ofNat 0) ≠ 'u' →
      ReachesEnd input closer (e + 2) → ReachesEnd input closer e
  | uEscape (e v : Nat) :
      e + 1 < input.length → input.getD e (Char.ofNat 0) = '\\' →
      input.getD (e + 1) (Char.ofNat 0) = 'u' →
      e + 6 < input.length →
      unhex (strSlice input (e + 2) (e + 6)) = some v →
      ReachesEnd input closer (e + 6) → ReachesEnd input closer e

/-- `_PiPf` initial/final-quote pairs. -/
def _PiPf : List (Char × Char) :=
  [('«', '»'), ('‘', '’'), ('“', '”'), ('‹', '›'), ('⸂', '⸃'), ('⸄', '⸅'),
   ('⸉', '⸊'), ('⸌', '⸍'), ('⸜', '⸝'), ('⸠', '⸡')]

/-- `_PsPf` open-punctuation/final-quote pairs. -/
def _PsPf : List (Char × Char) :=
  [('‚', '’'), ('„', '”')]

/-- `_PsPe` open/close punctuation pairs. -/
def _PsPe : List (Char × Char) :=
  [('(', ')'), ('[', ']'), (Char.ofNat 0x7b, Char.ofNat 0x7d), ('༺', '༻'),
   ('༼', '༽'), ('᚛', '᚜'), ('⁅', '⁆'), ('⁽', '⁾'), ('₍', '₎'), ('❨', '❩'),
   ('❪', '❫'), ('❬', '❭'), ('❮', '❯'), ('❰', '❱'), ('❲', '❳'), ('❴', '❵'),
   ('⟅', '⟆'), ('⟦', '⟧'), ('⟨', '⟩'), ('⟪', '⟫'), ('⦃', '⦄'), ('⦅', '⦆'),
   ('⦇', '⦈'), ('⦉', '⦊'), ('⦋', '⦌'), ('⦑', '⦒'), ('⦓', '⦔'), ('⦕', '⦖'),
   ('⦗', '⦘'), ('⧘', '⧙'), ('⧚', '⧛'), ('⧼', '⧽'), ('〈', '〉'), ('《', '》'),
   ('「', '」'), ('『', '』'), ('【', '】'), ('〔', '〕'), ('〖', '〗'),
   ('〘', '〙'), ('〚', '〛'), ('〝', '〞'), ('︗', '︘'), ('︵', '︶'),
   ('︷', '︸'), ('︹', '︺'), ('︻', '︼'), ('︽', '︾'), ('︿', '﹀'),
   ('﹁', '﹂'), ('﹃', '﹄'), ('﹇', '﹈'), ('﹙', '﹚'), ('﹛', '﹜'),
   ('﹝', '﹞'), ('（', '）'), ('［', '］'), ('｛', '｝'), ('｟', '｠'),
   ('｢', '｣'), ('⸨', '⸩')]

/-- `_SmSm` symmetric math-symbol pairs. -/
def _SmSm : List (Char × Char) :=
  [('<', '>')]

/-- `_Escapes`: the default escape table (`a`→bell, …, `v`→vertical tab). -/
def _Escapes : List (Char × Char) :=
  [('a', Char.ofNat 7), ('b', Char.ofNat 8), ('f', Char.ofNat 12),
   ('n', Char.ofNat 10), ('r', Char.ofNat 13), ('t', Char.ofNat 9),
   ('v', Char.ofNat 11)]

/-- Modelled from Go's `unicode.IsPunct` (Unicode category P), given exactly
on the ASCII range; every concrete evaluation below is at an ASCII code
point, and the structural theorems about `IsValidRegexpDelimiter` are
parameterized over an arbitrary punctuation predicate. -/
def goIsPunct (c : Char) : Bool :=
  c ∈ ['!', '"', '#', '%', '&', Char.ofNat 0x27, '(', ')', '*', ',', '-',
       '.', '/', ':', ';', '?', '@', '[', '\\', ']', '_', Char.ofNat 0x7b,
       Char.ofNat 0x7d]

/-- `IsValidRegexpDelimiter`, parameterized by the punctuation predicate
(`unicode.IsPunct` in Go).  The source iterates the four maps in the order
`_PiPf, _PsPf, _PsPe, _SmSm` and returns the first hit; otherwise any
punctuation code point or `>` pairs with itself.  Go's `(false, -1)` rejection
is `none` (its closer component is never read by any caller). -/
def IsValidRegexpDelimiter (isPunct : Char → Bool) (r : Char) : Option Char :=
  match mapLookup _PiPf r with
  | some c => some c
  | none =>
    match mapLookup _PsPf r with
    | some c => some c
    | none =>
      match mapLookup _PsPe r with
      | some c => some c
      | none =>
        match mapLookup _SmSm r with
        | some c => some c
        | none => if isPunct r || r == '>' then some r else none

/-- `IsValidRegexpDelimiter` with the modelled `unicode.IsPunct`; this is the
instantiation the package itself uses. -/
def IsValidRegexpDelimiterStd (r : Char) : Option Char :=
  IsValidRegexpDelimiter goIsPunct r

/-- `stringContainsRune`. -/
def stringContainsRune (s : List Char) (r : Char) : Bool :=
  s.any (fun candidate => candidate == r)

/-- `StringLit(allowedQuotes)`: the fixed-quote-set string literal parser.
The `bool` result of `stringImpl` is discarded, as in the source. -/
def StringLit (allowedQuotes : List Char) (ps : State) (node : Result) :
    State × Result :=
  match decodeRune (ps.input.drop ps.pos) with
  | (opener, size) =>
    if ¬ stringContainsRune allowedQuotes opener then
      (ps.errorHere (String.mk allowedQuotes), node)
    else
      match stringImpl ps (node.setStart (ps.pos + size)) opener _Escapes with
      | (ps1, node1, _) => (ps1, node1)

/-- `CustomStringLiteral(isValid, escapes)`. -/
def CustomStringLiteral (isValid : Char → Option Char)
    (escapes : List (Char × Char)) (ps : State) (node : Result) :
    State × Result :=
  match decodeRune (ps.input.drop ps.pos) with
  | (opener, size) =>
    match isValid opener with
    | none => (ps.errorHere "string delimiter", node)
    | some closer =>
      match stringImpl ps (node.setStart (ps.pos + size)) closer escapes with
      | (ps1, node1, matched) =>
        if ¬ matched then (ps1.errorHere "string delimiter", node1)
        else (ps1, node1)

/-- `UnicodeStringLiteral()`. -/
def UnicodeStringLiteral (ps : State) (node : Result) : State × Result :=
  CustomStringLiteral IsValidRegexpDelimiterStd _Escapes ps node

/-- `CustomRegexpMatchLiteral(isValid, escapes)`. -/
def CustomRegexpMatchLiteral (isValid : Char → Option Char)
    (escapes : List (Char × Char)) (ps : State) (node : Result) :
    State × Result :=
  match decodeRune (ps.input.drop ps.pos) with
  | (opener, size) =>
    match isValid opener with
    | none => (ps.errorHere "regexp delimiter", node)
    | some closer =>
      match stringImpl ps (node.setStart (ps.pos + size)) closer escapes with
      | (ps1, node1, matched) =>
        if ¬ matched then (ps1.errorHere (String.singleton closer), node1)
        else (ps1, node1)

/-- `UnicodeRegexpMatchLiteral()`. -/
def UnicodeRegexpMatchLiteral (ps : State) (node : Result) : State × Result :=
  CustomRegexpMatchLiteral IsValidRegexpDelimiterStd _Escapes ps node

/-- `CustomRegexpReplaceLiteral(isValid, escapes)`.  Faithful points: the
supplied `isValid` is consulted only for the first opening delimiter; when the
first segment's closer differs from its opener the second opener is
re-validated through the built-in `IsValidRegexpDelimiter`, and `ps.Pos` is
advanced past it *before* the validity check; segment 2 always uses the
default `_Escapes` table; on any failure the node is returned without
children. -/
def CustomRegexpReplaceLiteral (isValid : Char → Option Char)
    (escapes : List (Char × Char)) (ps : State) (node : Result) :
    State × Result :=
  match decodeRune (ps.input.drop ps.pos) with
  | (opener, size) =>
    match isValid opener with
    | none => (ps.errorHere "regexp delimiter", node)
    | some closer =>
      match stringImpl { ps with pos := ps.pos + size }
          (node.setStart (ps.pos + size)) closer escapes with
      | (ps1, child1, m1) =>
        if ¬ m1 then (ps1.errorHere (String.singleton closer), node)
        else
          match (if closer ≠ opener then
                   match decodeRune (ps1.input.drop ps1.pos) with
                   | (opener2, size2) =>
                     ({ ps1 with pos := ps1.pos + size2 },
                      IsValidRegexpDelimiterStd opener2)
                 else (ps1, some closer) : State × Option Char) with
          | (ps2, none) => (ps2.errorHere "regexp delimiter", node)
          | (ps2, some closer2) =>
            match stringImpl ps2 (node.setStart ps2.pos) closer2 _Escapes with
            | (ps3, child2, m2) =>
              if ¬ m2 then (ps3.errorHere (String.singleton closer2), node)
              else (ps3, node.setChild [child1, child2])

/-- `UnicodeRegexpReplaceLiteral()`. -/
def UnicodeRegexpReplaceLiteral (ps : State) (node : Result) : State × Result :=
  CustomRegexpReplaceLiteral IsValidRegexpDelimiterStd _Escapes ps node

/-- ASCII digit test `'0' <= b && b <= '9'`. -/
def charIsDigit (c : Char) : Bool :=
  48 ≤ c.toNat && c.toNat ≤ 57

/-- Sign byte test `b == '-' || b == '+'`. -/
def charIsSign (c : Char) : Bool :=
  c == '-' || c == '+'

/-- A digit run: `for end < inputLen && digit { end++ }`.  The run from `e`
has at most `input.length` steps, so the structural fuel `input.length + 1`
used by `skipDigits` is never exhausted. -/
def skipDigitsF (input : List Char) : Nat → Nat → Nat
  | 0, e => e
  | fuel + 1, e =>
    if e < input.length && charIsDigit (input.getD e (Char.ofNat 0)) then
      skipDigitsF input fuel (e + 1)
    else e

def skipDigits (input : List Char) (e : Nat) : Nat :=
  skipDigitsF input (input.length + 1) e

/-- The scanning phase of `NumberLit`: optional sign, digit run, optional
`.` plus digit run (sets float mode), optional `e`/`E` with optional sign and
digit run (sets float mode).  Returns the end offset and the float flag. -/
def numScan (input : List Char) (pos : Nat) : Nat × Bool :=
  let len := input.length
  let e := pos
  let e := if e < len && charIsSign (input.getD e (Char.ofNat 0)) then e + 1 else e
  let e := skipDigits input e
  let (float, e) :=
    if e < len && input.getD e (Char.ofNat 0) == '.' then (true, e + 1)
    else (false, e)
  let e := skipDigits input e
  if e < len && (input.getD e (Char.ofNat 0) == 'e'
      || input.getD e (Char.ofNat 0) == 'E') then
    let e := e + 1
    let e := if e < len && charIsSign (input.getD e (Char.ofNat 0)) then e + 1 else e
    (skipDigits input e, true)
  else (e, float)

/-- Decimal value of a digit string. -/
def digitsVal (l : List Char) : Nat :=
  l.foldl (fun acc c => acc * 10 + (c.toNat - 48)) 0

/-- The sign handling shared by `strconv.ParseInt` and `strconv.ParseFloat`:
strip one leading `+` or `-`, reporting whether it was `-`. -/
def splitSign (s : List Char) : Bool × List Char :=
  match s with
  | [] => (false, [])
  | c :: rest =>
    if c = '+' then (false, rest)
    else if c = '-' then (true, rest)
    else (false, c :: rest)

/-- Modelled from Go's `strconv.ParseInt(s, 10, 64)`: an optional single sign,
then at least one decimal digit and nothing else, with the result within the
signed 64-bit range. -/
def goParseInt64 (s : List Char) : Option Int :=
  let (neg, digits) := splitSign s
  if digits = [] ∨ ¬ digits.all charIsDigit then none
  else
    let v : Int := (if neg then -1 else 1) * (digitsVal digits : Int)
    if v < -(2 ^ 63) ∨ 2 ^ 63 - 1 < v then none else some v

/-- Splits a list at the first element satisfying `p`; the second component is
`none` when no such element exists. -/
def splitFirst (p : Char → Bool) : List Char → List Char × Option (List Char)
  | [] => ([], none)
  | c :: rest =>
    if p c then ([], some rest)
    else
      let (a, b) := splitFirst p rest
      (c :: a, b)

/-- `m · 10^z` as an exact rational, built from integer arithmetic and
`Rat.divInt` so the kernel can evaluate it. -/
def qscale (m : ℤ) (z : ℤ) : ℚ :=
  if 0 ≤ z then Rat.divInt (m * ((10 ^ z.toNat : ℕ) : ℤ)) 1
  else Rat.divInt m ((10 ^ (-z).toNat : ℕ) : ℤ)

/-- Modelled from Go's `strconv.ParseFloat` on the decimal forms `NumberLit`
can hand it (sign, digits, one `.`, one `e`/`E` exponent): the mantissa must
contain at least one digit and only digits besides the dot, and an exponent
marker must be followed by at least one digit.  The value is kept exact as a
rational; float64 rounding and the out-of-range (`ErrRange`) failure are not
modelled (no claim evaluates them). -/
def goParseFloat (s : List Char) : Option ℚ :=
  let (neg, rest) := splitSign s
  let (mant, expPart) := splitFirst (fun c => c == 'e' || c == 'E') rest
  let (ip, fpOpt) := splitFirst (fun c => c == '.') mant
  let fp := fpOpt.getD []
  if ¬ ip.all charIsDigit ∨ ¬ fp.all charIsDigit ∨ ip ++ fp = [] then none
  else
    let m : ℤ := (if neg then -1 else 1) * (digitsVal (ip ++ fp) : ℤ)
    match expPart with
    | none => some (qscale m (-(fp.length : ℤ)))
    | some ep =>
      let (eneg, edigits) := splitSign ep
      if edigits = [] ∨ ¬ edigits.all charIsDigit then none
      else
        some (qscale m
          ((if eneg then (-1 : ℤ) else 1) * (digitsVal edigits : ℤ) -
            (fp.length : ℤ)))

/-- `NumberLit()`: scan, reject an empty scan with expectation `"number"`,
otherwise parse the consumed slice as `int64` or `float64`; on parse failure
record `"number"`; on success store the value, the byte range, and advance the
cursor. -/
def NumberLit (ps : State) (node : Result) : State × Result :=
  let (e, float) := numScan ps.input ps.pos
  if e = ps.pos then (ps.errorHere "number", node)
  else
    let slice := strSlice ps.input ps.pos e
    let parsed : Option GoValue :=
      if float then (goParseFloat slice).map .float
      else (goParseInt64 slice).map .int
    match parsed with
    | none => (ps.errorHere "number", node)
    | some v =>
      ({ ps with pos := e },
       .mk ps.pos e node.token v node.child)

/-! ## Lemmas about the segment scanner -/

/-- The scan loop's value does not depend on the fuel once the fuel covers the
remaining input (each iteration advances `e` by at least one). -/
theorem scanLoop_fuel_irrel (input : List Char) (start : Nat) (closer : Char)
    (escapes : List (Char × Char)) :
    ∀ f g buf e, input.length + 1 - e ≤ f → input.length + 1 - e ≤ g →
      scanLoop input start closer escapes f buf e =
        scanLoop input start closer escapes g buf e := by
  intro f
  induction f with
  | zero =>
    intro g buf e hf _
    have he : ¬ e < input.length := by omega
    cases g with
    | zero => rfl
    | succ g => simp only [scanLoop, if_neg he]
  | succ f ih =>
    intro g buf e hf hg
    cases g with
    | zero =>
      have he : ¬ e < input.length := by omega
      simp only [scanLoop, if_neg he]
    | succ g =>
      simp only [scanLoop]
      by_cases he : e < input.length
      · simp only [if_pos he]
        by_cases hbs : input.getD e (Char.ofNat 0) = '\\'
        · simp only [if_pos hbs]
          by_cases h1 : input.length ≤ e + 1
          · simp only [if_pos h1]
          · simp only [if_neg h1]
            by_cases hu : input.getD (e + 1) (Char.ofNat 0) = 'u'
            · simp only [if_pos hu]
              by_cases h6 : input.length ≤ e + 6
              · simp only [if_pos h6]
              · simp only [if_neg h6]
                cases hx : unhex (strSlice input (e + 2) (e + 6)) with
                | none => rfl
                | some v => exact ih g _ _ (by omega) (by omega)
            · simp only [if_neg hu]
              exact ih g _ _ (by omega) (by omega)
        · simp only [if_neg hbs]
          by_cases hcl : input.getD e (Char.ofNat 0) = closer
          · simp only [if_pos hcl]
          · simp only [if_neg hcl]
            exact ih g _ _ (by omega) (by omega)
      · simp only [if_neg he]

/-- On success the scan strictly advances past the starting offset, and the
buffer contents at any intermediate state are a prefix of the final token. -/
theorem scanLoop_ok (input : List Char) (start : Nat) (closer : Char)
    (escapes : List (Char × Char)) :
    ∀ f buf e tok p, scanLoop input start closer escapes f buf e = .ok tok p →
      e < p ∧ ∀ b, buf = some b → ∃ t, tok = b ++ t := by
  intro f
  induction f with
  | zero =>
    intro buf e tok p h
    exact absurd h (by simp [scanLoop])
  | succ f ih =>
    intro buf e tok p h
    simp only [scanLoop] at h
    by_cases he : e < input.length
    · rw [if_pos he] at h
      by_cases hbs : input.getD e (Char.ofNat 0) = '\\'
      · rw [if_pos hbs] at h
        by_cases h1 : input.length ≤ e + 1
        · rw [if_pos h1] at h; exact absurd h (by simp)
        · rw [if_neg h1] at h
          by_cases hu : input.getD (e + 1) (Char.ofNat 0) = 'u'
          · rw [if_pos hu] at h
            by_cases h6 : input.length ≤ e + 6
            · rw [if_pos h6] at h; exact absurd h (by simp)
            · rw [if_neg h6] at h
              cases hx : unhex (strSlice input (e + 2) (e + 6)) with
              | none => rw [hx] at h; exact absurd h (by simp)
              | some v =>
                rw [hx] at h
                obtain ⟨hp, hpre⟩ := ih _ _ _ _ h
                refine ⟨by omega, fun b hb => ?_⟩
                obtain ⟨t, ht⟩ := hpre _ rfl
                subst hb
                exact ⟨goWriteRune v :: t, by simpa using ht⟩
          · rw [if_neg hu] at h
            obtain ⟨hp, hpre⟩ := ih _ _ _ _ h
            refine ⟨by omega, fun b hb => ?_⟩
            obtain ⟨t, ht⟩ := hpre _ rfl
            subst hb
            by_cases hc : input.getD (e + 1) (Char.ofNat 0) = closer
            · rw [if_pos hc] at ht
              exact ⟨_ :: t, by simpa using ht⟩
            · rw [if_neg hc] at ht
              cases hrep : mapLookup escapes (input.getD (e + 1) (Char.ofNat 0)) with
              | some rep =>
                rw [hrep] at ht
                exact ⟨rep :: t, by simpa using ht⟩
              | none =>
                rw [hrep] at ht
                exact ⟨'\\' :: input.getD (e + 1) (Char.ofNat 0) :: t, by simpa using ht⟩
      · rw [if_neg hbs] at h
        by_cases hcl : input.getD e (Char.ofNat 0) = closer
        · rw [if_pos hcl] at h
          cases buf with
          | none =>
            simp only [ScanOut.ok.injEq] at h
            exact ⟨by omega, fun b hb => by simp at hb⟩
          | some b0 =>
            simp only [ScanOut.ok.injEq] at h
            refine ⟨by omega, fun b hb => ?_⟩
            cases hb
            exact ⟨[], by simp [h.1.symm]⟩
        · rw [if_neg hcl] at h
          obtain ⟨hp, hpre⟩ := ih _ _ _ _ h
          refine ⟨by omega, fun b hb => ?_⟩
          subst hb
          obtain ⟨t, ht⟩ := hpre _ rfl
          exact ⟨input.getD e (Char.ofNat 0) :: t, by simpa using ht⟩
    · rw [if_neg he] at h
      exact absurd h (by simp)

/-- Every direct (`errAt`) error of the scan loop is recorded strictly beyond
the loop offset and within the input. -/
theorem scanLoop_errAt (input : List Char) (start : Nat) (closer : Char)
    (escapes : List (Char × Char)) :
    ∀ f buf e exp p, scanLoop input start closer escapes f buf e = .errAt exp p →
      e < p ∧ p ≤ input.length := by
  intro f
  induction f with
  | zero =>
    intro buf e exp p h
    exact absurd h (by simp [scanLoop])
  | succ f ih =>
    intro buf e exp p h
    simp only [scanLoop] at h
    by_cases he : e < input.length
    · rw [if_pos he] at h
      by_cases hbs : input.getD e (Char.ofNat 0) = '\\'
      · rw [if_pos hbs] at h
        by_cases h1 : input.length ≤ e + 1
        · rw [if_pos h1] at h; exact absurd h (by simp)
        · rw [if_neg h1] at h
          by_cases hu : input.getD (e + 1) (Char.ofNat 0) = 'u'
          · rw [if_pos hu] at h
            by_cases h6 : input.length ≤ e + 6
            · rw [if_pos h6] at h
              simp only [ScanOut.errAt.injEq] at h
              omega
            · rw [if_neg h6] at h
              cases hx : unhex (strSlice input (e + 2) (e + 6)) with
              | none =>
                rw [hx] at h
                simp only [ScanOut.errAt.injEq] at h
                omega
              | some v =>
                rw [hx] at h
                have := ih _ _ _ _ h
                omega
          · rw [if_neg hu] at h
            have := ih _ _ _ _ h
            omega
      · rw [if_neg hbs] at h
        by_cases hcl : input.getD e (Char.ofNat 0) = closer
        · rw [if_pos hcl] at h
          cases buf <;> simp_all
        · rw [if_neg hcl] at h
          have := ih _ _ _ _ h
          omega
    · rw [if_neg he] at h
      exact absurd h (by simp)

/-- A segment with no backslash and no closer before position `k`, and the
closer at `k`, scans (bufferless) to exactly the raw slice, stopping just past
the closer. -/
theorem scanLoop_clean (input : List Char) (start : Nat) (closer : Char)
    (escapes : List (Char × Char)) (k : Nat)
    (hcl : input.getD k (Char.ofNat 0) = closer) (hkl : k < input.length)
    (hne : closer ≠ '\\') :
    ∀ f e, input.length + 1 - e ≤ f → e ≤ k →
      (∀ j, e ≤ j → j < k → input.getD j (Char.ofNat 0) ≠ '\\' ∧
        input.getD j (Char.ofNat 0) ≠ closer) →
      scanLoop input start closer escapes f none e =
        .ok (strSlice input start k) (k + 1) := by
  intro f
  induction f with
  | zero =>
    intro e hf hek _
    omega
  | succ f ih =>
    intro e hf hek hclean
    have he : e < input.length := by omega
    simp only [scanLoop, if_pos he]
    by_cases hk : e = k
    · subst hk
      rw [hcl, if_neg hne, if_pos rfl]
    · have hj := hclean e le_rfl (by omega)
      rw [if_neg hj.1, if_neg hj.2]
      exact ih (e + 1) (by omega) (by omega) (fun j h1 h2 => hclean j (by omega) h2)

/-- A segment scan that reaches end of input without an unescaped closer
(in the sense of the `ReachesEnd` trace, escapes included) fails through the
`ErrorHere(string(closer))` exits — so the expectation is always the closer —
whatever the fuel and buffer state. -/
theorem scanLoop_reachesEnd (input : List Char) (start : Nat) (closer : Char)
    (escapes : List (Char × Char)) :
    ∀ e, ReachesEnd input closer e → ∀ f buf,
      scanLoop input start closer escapes f buf e =
        .errHere (String.singleton closer) := by
  intro e hre
  induction hre with
  | atEnd e he =>
    intro f buf
    cases f with
    | zero => rfl
    | succ g =>
      simp only [scanLoop, if_neg (show ¬ e < input.length by omega)]
  | trailingBackslash e he hbs h1 =>
    intro f buf
    cases f with
    | zero => rfl
    | succ g => simp only [scanLoop, if_pos he, if_pos hbs, if_pos h1]
  | ordinary e he hbs hcl hrec ih =>
    intro f buf
    cases f with
    | zero => rfl
    | succ g =>
      simp only [scanLoop, if_pos he, if_neg hbs, if_neg hcl]
      exact ih g _
  | escape e h1 hbs hu hrec ih =>
    intro f buf
    cases f with
    | zero => rfl
    | succ g =>
      simp only [scanLoop, if_pos (show e < input.length by omega),
        if_pos hbs, if_neg (show ¬ input.length ≤ e + 1 by omega), if_neg hu]
      exact ih g _
  | uEscape e v h1 hbs hu h6 hx hrec ih =>
    intro f buf
    cases f with
    | zero => rfl
    | succ g =>
      simp only [scanLoop, if_pos (show e < input.length by omega),
        if_pos hbs, if_neg (show ¬ input.length ≤ e + 1 by omega), if_pos hu,
        if_neg (show ¬ input.length ≤ e + 6 by omega), hx]
      exact ih g _

/-- One backslash iteration with a following code point other than `u`: the
scanner allocates the buffer if needed, appends by the three-way case split of
the source (closer first, then the escape table, then backslash plus code
point verbatim), and continues two code points further — it never fails and
never terminates the literal there. -/
theorem stringImplGo_escape_step (input : List Char) (start : Nat) (closer : Char)
    (escapes : List (Char × Char)) (buf : Option (List Char)) (e : Nat)
    (hlt : e + 1 < input.length)
    (hbs : input.getD e (Char.ofNat 0) = '\\')
    (hu : input.getD (e + 1) (Char.ofNat 0) ≠ 'u') :
    stringImplGo input start closer escapes buf e =
      stringImplGo input start closer escapes
        (some
          (if input.getD (e + 1) (Char.ofNat 0) = closer then
            buf.getD (strSlice input start e) ++ [input.getD (e + 1) (Char.ofNat 0)]
          else
            match mapLookup escapes (input.getD (e + 1) (Char.ofNat 0)) with
            | some rep => buf.getD (strSlice input start e) ++ [rep]
            | none =>
              buf.getD (strSlice input start e) ++
                ['\\', input.getD (e + 1) (Char.ofNat 0)]))
        (e + 2) := by
  unfold stringImplGo
  obtain ⟨f, hf⟩ : ∃ f, input.length + 1 - e = f + 1 :=
    ⟨input.length - e, by omega⟩
  rw [hf]
  simp only [scanLoop, if_pos (show e < input.length by omega), if_pos hbs,
    if_neg (show ¬ input.length ≤ e + 1 by omega), if_neg hu]
  exact scanLoop_fuel_irrel _ _ _ _ f _ _ _ (by omega) (by omega)

/-- One `\u` iteration whose four-digit hex window decodes and sits strictly
inside the input: the scanner appends the written rune and continues six code
points further. -/
theorem stringImplGo_u_step (input : List Char) (start : Nat) (closer : Char)
    (escapes : List (Char × Char)) (buf : Option (List Char)) (e v : Nat)
    (hbs : input.getD e (Char.ofNat 0) = '\\')
    (hu : input.getD (e + 1) (Char.ofNat 0) = 'u')
    (h6 : e + 6 < input.length)
    (hx : unhex (strSlice input (e + 2) (e + 6)) = some v) :
    stringImplGo input start closer escapes buf e =
      stringImplGo input start closer escapes
        (some (buf.getD (strSlice input start e) ++ [goWriteRune v])) (e + 6) := by
  unfold stringImplGo
  obtain ⟨f, hf⟩ : ∃ f, input.length + 1 - e = f + 1 :=
    ⟨input.length - e, by omega⟩
  rw [hf]
  simp only [scanLoop, if_pos (show e < input.length by omega), if_pos hbs,
    if_neg (show ¬ input.length ≤ e + 1 by omega), if_pos hu,
    if_neg (show ¬ input.length ≤ e + 6 by omega), hx]
  exact scanLoop_fuel_irrel _ _ _ _ f _ _ _ (by omega) (by omega)

/-- A `\u` whose four-character window reaches or passes the end of input
fails with the four-hex-digit expectation at the first window position. -/
theorem stringImplGo_u_short (input : List Char) (start : Nat) (closer : Char)
    (escapes : List (Char × Char)) (buf : Option (List Char)) (e : Nat)
    (hlt : e + 1 < input.length)
    (hbs : input.getD e (Char.ofNat 0) = '\\')
    (hu : input.getD (e + 1) (Char.ofNat 0) = 'u')
    (h6 : input.length ≤ e + 6) :
    stringImplGo input start closer escapes buf e =
      .errAt "[a-f0-9]\x7b4\x7d" (e + 2) := by
  unfold stringImplGo
  obtain ⟨f, hf⟩ : ∃ f, input.length + 1 - e = f + 1 :=
    ⟨input.length - e, by omega⟩
  rw [hf]
  simp only [scanLoop, if_pos (show e < input.length by omega), if_pos hbs,
    if_neg (show ¬ input.length ≤ e + 1 by omega), if_pos hu, if_pos h6]

/-- A `\u` whose window is inside the input but fails hex decoding fails with
the hex-digit expectation at the first window position — regardless of where
the offending digit sits inside the window. -/
theorem stringImplGo_u_bad (input : List Char) (start : Nat) (closer : Char)
    (escapes : List (Char × Char)) (buf : Option (List Char)) (e : Nat)
    (hbs : input.getD e (Char.ofNat 0) = '\\')
    (hu : input.getD (e + 1) (Char.ofNat 0) = 'u')
    (h6 : e + 6 < input.length)
    (hx : unhex (strSlice input (e + 2) (e + 6)) = none) :
    stringImplGo input start closer escapes buf e = .errAt "[a-f0-9]" (e + 2) := by
  unfold stringImplGo
  obtain ⟨f, hf⟩ : ∃ f, input.length + 1 - e = f + 1 :=
    ⟨input.length - e, by omega⟩
  rw [hf]
  simp only [scanLoop, if_pos (show e < input.length by omega), if_pos hbs,
    if_neg (show ¬ input.length ≤ e + 1 by omega), if_pos hu,
    if_neg (show ¬ input.length ≤ e + 6 by omega), hx]

/-! ## Lemmas about the numeric parse models -/

theorem splitSign_mem (s : List Char) : ∀ c ∈ (splitSign s).2, c ∈ s := by
  cases s with
  | nil => intro c hc; simp [splitSign] at hc
  | cons a rest =>
    intro c hc
    by_cases h1 : a = '+'
    · simp only [splitSign, if_pos h1] at hc
      exact List.mem_cons_of_mem _ hc
    · by_cases h2 : a = '-'
      · simp only [splitSign, if_neg h1, if_pos h2] at hc
        exact List.mem_cons_of_mem _ hc
      · simpa [splitSign, if_neg h1, if_neg h2] using hc

theorem splitFirst_fst_mem (p : Char → Bool) :
    ∀ l, ∀ c ∈ (splitFirst p l).1, c ∈ l := by
  intro l
  induction l with
  | nil => intro c hc; simp [splitFirst] at hc
  | cons a rest ih =>
    intro c hc
    by_cases hp : p a = true
    · simp [splitFirst, hp] at hc
    · simp only [splitFirst, if_neg hp] at hc
      rcases List.mem_cons.mp hc with h | h
      · exact h ▸ List.mem_cons_self _ _
      · exact List.mem_cons_of_mem _ (ih c h)

theorem splitFirst_snd_mem (p : Char → Bool) :
    ∀ l r, (splitFirst p l).2 = some r → ∀ c ∈ r, c ∈ l := by
  intro l
  induction l with
  | nil => intro r hr; simp [splitFirst] at hr
  | cons a rest ih =>
    intro r hr c hc
    by_cases hp : p a = true
    · simp only [splitFirst, if_pos hp] at hr
      cases hr
      exact List.mem_cons_of_mem _ hc
    · simp only [splitFirst, if_neg hp] at hr
      exact List.mem_cons_of_mem _ (ih r hr c hc)

/-- A nonempty digit-free list fails the `all charIsDigit` test. -/
theorem not_all_digit_of_head (d : Char) (rest : List Char)
    (hd : charIsDigit d = false) : ¬ (d :: rest).all charIsDigit := by
  simp only [List.all_cons, Bool.and_eq_true, not_and]
  intro hdig
  rw [hd] at hdig
  exact absurd hdig (by simp)

/-- A slice with no decimal digit is rejected by the `ParseInt` model. -/
theorem goParseInt64_no_digit (s : List Char)
    (h : ∀ c ∈ s, charIsDigit c = false) : goParseInt64 s = none := by
  rcases hsp : splitSign s with ⟨neg, digits⟩
  unfold goParseInt64
  rw [hsp]
  cases hd : digits with
  | nil => simp
  | cons d rest =>
    have hdm : d ∈ s := by
      refine splitSign_mem s d ?_
      rw [hsp, hd]
      exact List.mem_cons_self _ _
    have hnall := not_all_digit_of_head d rest (h d hdm)
    simp [hnall]

/-- A slice with no decimal digit is rejected by the `ParseFloat` model. -/
theorem goParseFloat_no_digit (s : List Char)
    (h : ∀ c ∈ s, charIsDigit c = false) : goParseFloat s = none := by
  rcases hsp : splitSign s with ⟨neg, rest⟩
  have hrest : ∀ c ∈ rest, charIsDigit c = false := by
    intro c hc
    refine h c (splitSign_mem s c ?_)
    rw [hsp]; exact hc
  rcases hsm : splitFirst (fun c => c == 'e' || c == 'E') rest with ⟨mant, expPart⟩
  have hmant : ∀ c ∈ mant, charIsDigit c = false := by
    intro c hc
    refine hrest c
      (splitFirst_fst_mem (fun c => c == 'e' || c == 'E') rest c ?_)
    rw [hsm]; exact hc
  rcases hsi : splitFirst (fun c => c == '.') mant with ⟨ip, fpOpt⟩
  unfold goParseFloat
  rw [hsp]
  dsimp only
  rw [hsm]
  dsimp only
  rw [hsi]
  dsimp only
  cases hip : ip with
  | cons d drest =>
    have hdm : charIsDigit d = false := by
      refine hmant d (splitFirst_fst_mem (fun c => c == '.') mant d ?_)
      rw [hsi, hip]; exact List.mem_cons_self _ _
    have hnall := not_all_digit_of_head d drest hdm
    simp [hnall]
  | nil =>
    cases hfp : fpOpt with
    | none => simp
    | some fp =>
      cases hfpn : fp with
      | nil => simp
      | cons d drest =>
        have hdm : charIsDigit d = false := by
          refine hmant d (splitFirst_snd_mem (fun c => c == '.') mant fp ?_ d ?_)
          · rw [hsi, hfp]
          · rw [hfpn]; exact List.mem_cons_self _ _
        simp [hfpn, hdm]

/-! ## Small facts about `Result` fields and `stringImpl` -/

theorem Result.start_setToken (r : Result) (t : List Char) :
    (r.setToken t).start = r.start := by
  cases r; rfl

theorem Result.start_setStart (r : Result) (s : Nat) :
    (r.setStart s).start = s := by
  cases r; rfl

theorem stringImpl_start (ps : State) (node : Result) (closer : Char)
    (escapes : List (Char × Char)) :
    (stringImpl ps node closer escapes).2.1.start = node.start := by
  unfold stringImpl
  cases stringImplGo ps.input node.start closer escapes none node.start with
  | ok tok p => exact Result.start_setToken node tok
  | errHere exp => rfl
  | errAt exp p => rfl

/-- A successful segment scan leaves the cursor strictly past the segment
start. -/
theorem stringImpl_true_pos (ps : State) (node : Result) (closer : Char)
    (escapes : List (Char × Char)) :
    (stringImpl ps node closer escapes).2.2 = true →
      node.start < (stringImpl ps node closer escapes).1.pos := by
  unfold stringImpl
  cases hx : stringImplGo ps.input node.start closer escapes none node.start with
  | ok tok p =>
    intro _
    exact (scanLoop_ok ps.input node.start closer escapes _ _ _ _ _ hx).1
  | errHere exp => intro h; simp at h
  | errAt exp p => intro h; simp at h

/-- On every run of the replace-literal parser the node's children are either
untouched (any failure path) or exactly the two scanned segments in scan
order: the pattern segment starts strictly before the replacement segment. -/
theorem replace_child_shape (isValid : Char → Option Char)
    (escapes : List (Char × Char)) (ps : State) (node : Result) :
    (CustomRegexpReplaceLiteral isValid escapes ps node).2.child = node.child ∨
    ∃ c1 c2,
      (CustomRegexpReplaceLiteral isValid escapes ps node).2.child = [c1, c2] ∧
        c1.start < c2.start := by
  unfold CustomRegexpReplaceLiteral
  rcases hd : decodeRune (ps.input.drop ps.pos) with ⟨opener, size⟩
  dsimp only
  cases hv : isValid opener with
  | none => exact Or.inl rfl
  | some closer =>
    dsimp only
    have h1s := stringImpl_start { ps with pos := ps.pos + size }
      (node.setStart (ps.pos + size)) closer escapes
    have h1p := stringImpl_true_pos { ps with pos := ps.pos + size }
      (node.setStart (ps.pos + size)) closer escapes
    rcases hs1 : stringImpl { ps with pos := ps.pos + size }
        (node.setStart (ps.pos + size)) closer escapes with ⟨ps1, child1, m1⟩
    rw [hs1] at h1s h1p
    rw [Result.start_setStart] at h1p
    dsimp only at h1s h1p
    dsimp only
    cases m1 with
    | false => exact Or.inl rfl
    | true =>
      have h1p' : ps.pos + size < ps1.pos := h1p rfl
      by_cases hco : closer ≠ opener
      · rw [if_pos hco]
        rcases hd2 : decodeRune (ps1.input.drop ps1.pos) with ⟨opener2, size2⟩
        dsimp only
        cases hv2 : IsValidRegexpDelimiterStd opener2 with
        | none => exact Or.inl rfl
        | some closer2 =>
          dsimp only
          have h2s := stringImpl_start { ps1 with pos := ps1.pos + size2 }
            (node.setStart (ps1.pos + size2)) closer2 _Escapes
          rcases hs2 : stringImpl { ps1 with pos := ps1.pos + size2 }
              (node.setStart (ps1.pos + size2)) closer2 _Escapes with
            ⟨ps3, child2, m2⟩
          rw [hs2] at h2s
          dsimp only at h2s
          dsimp only
          cases m2 with
          | false => exact Or.inl rfl
          | true =>
            refine Or.inr ⟨child1, child2, ?_, ?_⟩
            · cases node; rfl
            · rw [h1s, h2s, Result.start_setStart, Result.start_setStart]
              omega
      · rw [if_neg hco]
        dsimp only
        have h2s := stringImpl_start ps1 (node.setStart ps1.pos) closer _Escapes
        rcases hs2 : stringImpl ps1 (node.setStart ps1.pos) closer _Escapes with
          ⟨ps3, child2, m2⟩
        rw [hs2] at h2s
        dsimp only at h2s
        dsimp only
        cases m2 with
        | false => exact Or.inl rfl
        | true =>
          refine Or.inr ⟨child1, child2, ?_, ?_⟩
          · cases node; rfl
          · rw [h1s, h2s, Result.start_setStart, Result.start_setStart]
            omega

/-! ## Claim theorems -/

/-- C1: a segment scan whose text between `node.start` and the first
unescaped closer contains no backslash returns exactly the raw source slice
between the delimiters as the token (the zero-copy path never allocates a
buffer, so the token is literally that slice) and advances the cursor to the
position just past the closer.  (`closer ≠ '\\'` scopes the statement to
scans that can find a closer at all: a backslash closer is swallowed by the
escape arm, which Go's `switch` orders first.) -/
theorem stringImpl_zero_copy (ps : State) (node : Result) (closer : Char)
    (escapes : List (Char × Char)) (k : Nat)
    (hk : node.start ≤ k) (hkl : k < ps.input.length)
    (hclean : ∀ j, node.start ≤ j → j < k →
      ps.input.getD j (Char.ofNat 0) ≠ '\\' ∧
      ps.input.getD j (Char.ofNat 0) ≠ closer)
    (hcl : ps.input.getD k (Char.ofNat 0) = closer)
    (hne : closer ≠ '\\') :
    stringImpl ps node closer escapes =
      ({ ps with pos := k + 1 },
       node.setToken (strSlice ps.input node.start k), true) := by
  unfold stringImpl stringImplGo
  rw [scanLoop_clean ps.input node.start closer escapes k hcl hkl hne _
    node.start (by omega) hk hclean]

/-- Witness for C1 on the literal `"ab"`. -/
theorem stringImpl_zero_copy_witness :
    stringImpl ⟨"\"ab\"".data, 0, ⟨"", 0⟩⟩ (emptyResult.setStart 1) '"'
        _Escapes =
      (⟨"\"ab\"".data, 4, ⟨"", 0⟩⟩, (emptyResult.setStart 1).setToken ['a', 'b'],
       true) :=
  stringImpl_zero_copy ⟨"\"ab\"".data, 0, ⟨"", 0⟩⟩ (emptyResult.setStart 1) '"'
    _Escapes 3 (by decide) (by decide)
    (fun j h1 h2 => by
      have h1' : 1 ≤ j := h1
      interval_cases j <;> exact ⟨by decide, by decide⟩)
    (by decide) (by decide)

/-- C2: a backslash escape whose following code point `c` is not `u` decodes
by exactly the source's case order — `c` equal to the active closer appends
the closer literally and the scan continues (the literal does not terminate);
otherwise an escape-table hit appends the mapped control character; otherwise
both the backslash and `c` are appended unchanged — and in every case the
scan proceeds two code points further without failing.  The second conjunct
pins the escape table to the claimed seven control characters. -/
theorem stringImpl_escape_case_order (input : List Char) (start : Nat)
    (closer : Char) (escapes : List (Char × Char)) (buf : Option (List Char))
    (e : Nat) (c : Char)
    (hlt : e + 1 < input.length)
    (hbs : input.getD e (Char.ofNat 0) = '\\')
    (hc : input.getD (e + 1) (Char.ofNat 0) = c)
    (hu : c ≠ 'u') :
    (stringImplGo input start closer escapes buf e =
      stringImplGo input start closer escapes
        (some
          (if c = closer then buf.getD (strSlice input start e) ++ [c]
           else
             match mapLookup escapes c with
             | some rep => buf.getD (strSlice input start e) ++ [rep]
             | none => buf.getD (strSlice input start e) ++ ['\\', c]))
        (e + 2)) ∧
    _Escapes = [('a', Char.ofNat 7), ('b', Char.ofNat 8), ('f', Char.ofNat 12),
      ('n', Char.ofNat 10), ('r', Char.ofNat 13), ('t', Char.ofNat 9),
      ('v', Char.ofNat 11)] := by
  subst hc
  exact ⟨stringImplGo_escape_step input start closer escapes buf e hlt hbs hu,
    rfl⟩

/-- Witness for C2 on the escape `\n` inside `"a\nb"`. -/
theorem stringImpl_escape_case_order_witness :
    (stringImplGo "\"a\\nb\"".data 1 '"' _Escapes none 2 =
      stringImplGo "\"a\\nb\"".data 1 '"' _Escapes (some ['a', '\n']) 4) ∧
    _Escapes = [('a', Char.ofNat 7), ('b', Char.ofNat 8), ('f', Char.ofNat 12),
      ('n', Char.ofNat 10), ('r', Char.ofNat 13), ('t', Char.ofNat 9),
      ('v', Char.ofNat 11)] := by
  have h := stringImpl_escape_case_order "\"a\\nb\"".data 1 '"' _Escapes none 2
    'n' (by decide) (by decide) (by decide) (by decide)
  exact ⟨h.1, h.2⟩

/-- C3 counterexample: scanning `"\u12G4"`, the first offending (non-hex)
character is `G` at offset 5 — offsets 3 and 4 hold valid hex digits — but
the recorded error position is 3, the first character after the `u`, so the
error is not positioned at the first offending character. -/
theorem stringLit_hex_error_position_counterexample :
    (StringLit ['"'] ⟨"\"\\u12G4\"".data, 0, ⟨"", 0⟩⟩ emptyResult).1.error =
        ⟨"[a-f0-9]", 3⟩ ∧
    "\"\\u12G4\"".data.getD 5 (Char.ofNat 0) = 'G' ∧
    unhexDigit 'G' = none ∧
    (∀ i, i < 5 → 3 ≤ i →
      unhexDigit ("\"\\u12G4\"".data.getD i (Char.ofNat 0)) ≠ none) ∧
    (StringLit ['"'] ⟨"\"\\u12G4\"".data, 0, ⟨"", 0⟩⟩ emptyResult).1.error.pos
      ≠ 5 := by
  decide

/-- C3 (amended): a `\u` followed by four hex digits that decode to a valid
scalar value, with at least one code point after them, appends exactly that
code point, so it appears in the token of any successful scan; a `\u` whose
four-character window reaches or passes end of input fails with the
`[a-f0-9]{4}` expectation, and one whose window contains a non-hex digit
fails with the `[a-f0-9]` expectation — both positioned at the first
character after the `u`, not at the offending character. -/
theorem stringImpl_u_escape_spec (input : List Char) (start : Nat)
    (closer : Char) (escapes : List (Char × Char)) :
    (∀ buf e v tok p,
        input.getD e (Char.ofNat 0) = '\\' →
        input.getD (e + 1) (Char.ofNat 0) = 'u' →
        e + 6 < input.length →
        unhex (strSlice input (e + 2) (e + 6)) = some v →
        v.isValidChar →
        stringImplGo input start closer escapes buf e = .ok tok p →
        Char.ofNat v ∈ tok) ∧
    (∀ buf e,
        e + 1 < input.length →
        input.getD e (Char.ofNat 0) = '\\' →
        input.getD (e + 1) (Char.ofNat 0) = 'u' →
        input.length ≤ e + 6 →
        stringImplGo input start closer escapes buf e =
          .errAt "[a-f0-9]\x7b4\x7d" (e + 2)) ∧
    (∀ buf e,
        input.getD e (Char.ofNat 0) = '\\' →
        input.getD (e + 1) (Char.ofNat 0) = 'u' →
        e + 6 < input.length →
        unhex (strSlice input (e + 2) (e + 6)) = none →
        stringImplGo input start closer escapes buf e =
          .errAt "[a-f0-9]" (e + 2)) := by
  refine ⟨?_,
    fun buf e h1 h2 h3 h4 => stringImplGo_u_short _ _ _ _ _ _ h1 h2 h3 h4,
    fun buf e h1 h2 h3 h4 => stringImplGo_u_bad _ _ _ _ _ _ h1 h2 h3 h4⟩
  intro buf e v tok p hbs hu h6 hx hv hok
  rw [stringImplGo_u_step input start closer escapes buf e v hbs hu h6 hx] at hok
  obtain ⟨t, ht⟩ :=
    (scanLoop_ok input start closer escapes _ _ _ _ _ hok).2 _ rfl
  have hw : goWriteRune v = Char.ofNat v := by simp [goWriteRune, hv]
  rw [ht, ← hw]
  simp

/-- Witness for C3: `\u0041` decodes to `A` inside `"\u0041x"`; `\uZZZZ` at
end of input and `\u12G4` produce the two hex errors at the post-`u`
offset. -/
theorem stringImpl_u_escape_spec_witness :
    Char.ofNat 65 ∈ (['A', 'x'] : List Char) ∧
    stringImplGo "\"a\\uZZZZ".data 1 '"' _Escapes none 2 =
      .errAt "[a-f0-9]\x7b4\x7d" 4 ∧
    stringImplGo "\"\\u12G4\"".data 1 '"' _Escapes none 1 =
      .errAt "[a-f0-9]" 3 := by
  refine ⟨?_, ?_, ?_⟩
  · exact (stringImpl_u_escape_spec "\"\\u0041x\"".data 1 '"' _Escapes).1 none 1
      65 ['A', 'x'] 9 (by decide) (by decide) (by decide) (by decide)
      (by decide) (by decide)
  · exact (stringImpl_u_escape_spec "\"a\\uZZZZ".data 1 '"' _Escapes).2.1 none 2
      (by decide) (by decide) (by decide) (by decide)
  · exact (stringImpl_u_escape_spec "\"\\u12G4\"".data 1 '"' _Escapes).2.2 none 1
      (by decide) (by decide) (by decide) (by decide)

/-- C4: `NumberLit` parses `"42"` to the integer 42 (consuming both
characters), `"-3.14"` to the exact float value −3.14, `"1e10"` to the float
1e10, `"+5"` to the integer 5; on `"."` and `"-"` it fails with expectation
`"number"` leaving the cursor unchanged; and in general it fails with
expectation `"number"` and consumes nothing whenever the consumed slice
contains no digit (covering the zero-character scan) and whenever the numeric
parse of the consumed slice fails.  Float values are exact rationals;
`Rat.divInt (-314) 100` and `Rat.divInt 10000000000 1` are proved equal to the
literals `-3.14` and `1e10`. -/
theorem numberLit_spec :
    ((NumberLit ⟨"42".data, 0, ⟨"", 0⟩⟩ emptyResult).2.value = .int 42 ∧
      (NumberLit ⟨"42".data, 0, ⟨"", 0⟩⟩ emptyResult).1.pos = 2) ∧
    ((NumberLit ⟨"-3.14".data, 0, ⟨"", 0⟩⟩ emptyResult).2.value =
        .float (Rat.divInt (-314) 100) ∧
      Rat.divInt (-314) 100 = (-3.14 : ℚ)) ∧
    ((NumberLit ⟨"1e10".data, 0, ⟨"", 0⟩⟩ emptyResult).2.value =
        .float (Rat.divInt 10000000000 1) ∧
      Rat.divInt 10000000000 1 = (1e10 : ℚ)) ∧
    (NumberLit ⟨"+5".data, 0, ⟨"", 0⟩⟩ emptyResult).2.value = .int 5 ∧
    (NumberLit ⟨".".data, 0, ⟨"", 0⟩⟩ emptyResult).1 =
      ⟨".".data, 0, ⟨"number", 0⟩⟩ ∧
    (NumberLit ⟨"-".data, 0, ⟨"", 0⟩⟩ emptyResult).1 =
      ⟨"-".data, 0, ⟨"number", 0⟩⟩ ∧
    (∀ ps node,
      (∀ c ∈ strSlice ps.input ps.pos (numScan ps.input ps.pos).1,
        charIsDigit c = false) →
      NumberLit ps node = (ps.errorHere "number", node)) ∧
    ∀ ps node,
      (if (numScan ps.input ps.pos).2 then
        (goParseFloat
          (strSlice ps.input ps.pos (numScan ps.input ps.pos).1)).map
          GoValue.float
      else
        (goParseInt64
          (strSlice ps.input ps.pos (numScan ps.input ps.pos).1)).map
          GoValue.int) = none →
      NumberLit ps node = (ps.errorHere "number", node) := by
  refine ⟨⟨by decide, by decide⟩,
    ⟨by decide, by norm_num [Rat.divInt_eq_div]⟩,
    ⟨by decide, by norm_num [Rat.divInt_eq_div]⟩,
    by decide, by decide, by decide, ?_, ?_⟩
  · intro ps node h
    rcases hn : numScan ps.input ps.pos with ⟨e, float⟩
    rw [hn] at h
    unfold NumberLit
    rw [hn]
    dsimp only
    by_cases hep : e = ps.pos
    · rw [if_pos hep]
    · rw [if_neg hep]
      cases float with
      | true => simp [goParseFloat_no_digit _ h]
      | false => simp [goParseInt64_no_digit _ h]
  · intro ps node h
    rcases hn : numScan ps.input ps.pos with ⟨e, float⟩
    rw [hn] at h
    unfold NumberLit
    rw [hn]
    dsimp only at h ⊢
    by_cases hep : e = ps.pos
    · rw [if_pos hep]
    · rw [if_neg hep, h]

/-- Witness for C4's general clauses: the digit-free clause at `"-"` and the
parse-failure clause at `"5e"` (scanned whole, but rejected by the float
parse for lacking exponent digits). -/
theorem numberLit_spec_witness :
    NumberLit ⟨"-".data, 0, ⟨"", 0⟩⟩ emptyResult =
      (State.errorHere ⟨"-".data, 0, ⟨"", 0⟩⟩ "number", emptyResult) ∧
    NumberLit ⟨"5e".data, 0, ⟨"", 0⟩⟩ emptyResult =
      (State.errorHere ⟨"5e".data, 0, ⟨"", 0⟩⟩ "number", emptyResult) :=
  ⟨numberLit_spec.2.2.2.2.2.2.1 ⟨"-".data, 0, ⟨"", 0⟩⟩ emptyResult (by decide),
   numberLit_spec.2.2.2.2.2.2.2 ⟨"5e".data, 0, ⟨"", 0⟩⟩ emptyResult
     (by decide)⟩

/-- C5: the replace-form regexp literal on `/foo/bar/` (symmetric delimiter)
succeeds with exactly the two child segments `foo` and `bar`, advancing past
the whole literal; on `(foo)[bar]` (asymmetric pair, second opener `[`
validating to `]` through the built-in matcher) it succeeds with child tokens
`foo` and `bar`; and in every run the node's children are either untouched or
exactly the ordered pair (pattern, replacement) — the pattern segment
starting strictly before the replacement segment. -/
theorem replaceLiteral_spec :
    ((UnicodeRegexpReplaceLiteral ⟨"/foo/bar/".data, 0, ⟨"", 0⟩⟩
        emptyResult).2.child.map Result.token =
      [['f', 'o', 'o'], ['b', 'a', 'r']] ∧
      (UnicodeRegexpReplaceLiteral ⟨"/foo/bar/".data, 0, ⟨"", 0⟩⟩
        emptyResult).1.pos = 9) ∧
    ((UnicodeRegexpReplaceLiteral ⟨"(foo)[bar]".data, 0, ⟨"", 0⟩⟩
        emptyResult).2.child.map Result.token =
      [['f', 'o', 'o'], ['b', 'a', 'r']] ∧
      IsValidRegexpDelimiterStd '[' = some ']') ∧
    ∀ (isValid : Char → Option Char) (escapes : List (Char × Char))
      (ps : State) (node : Result),
      (CustomRegexpReplaceLiteral isValid escapes ps node).2.child =
        node.child ∨
      ∃ c1 c2,
        (CustomRegexpReplaceLiteral isValid escapes ps node).2.child =
          [c1, c2] ∧ c1.start < c2.start := by
  exact ⟨⟨by decide, by decide⟩, ⟨by decide, by decide⟩,
    fun isValid escapes ps node => replace_child_shape isValid escapes ps node⟩

/-- Witness for C5's universally quantified ordered-pair clause, at the
concrete replace literal `/a/b/`. -/
theorem replaceLiteral_spec_witness :
    (CustomRegexpReplaceLiteral IsValidRegexpDelimiterStd _Escapes
        ⟨"/a/b/".data, 0, ⟨"", 0⟩⟩ emptyResult).2.child =
      emptyResult.child ∨
    ∃ c1 c2,
      (CustomRegexpReplaceLiteral IsValidRegexpDelimiterStd _Escapes
          ⟨"/a/b/".data, 0, ⟨"", 0⟩⟩ emptyResult).2.child = [c1, c2] ∧
        c1.start < c2.start :=
  replaceLiteral_spec.2.2 IsValidRegexpDelimiterStd _Escapes
    ⟨"/a/b/".data, 0, ⟨"", 0⟩⟩ emptyResult

/-- C6 counterexample: the unterminated literal `"abc` (input length 4) fails
with expectation `"` as claimed, but the error is recorded at position 0 —
the cursor, still at the opening quote — not at end of input (4). -/
theorem stringLit_unterminated_counterexample :
    (StringLit ['"'] ⟨"\"abc".data, 0, ⟨"", 0⟩⟩ emptyResult).1.error =
        ⟨"\"", 0⟩ ∧
    (StringLit ['"'] ⟨"\"abc".data, 0, ⟨"", 0⟩⟩ emptyResult).1.pos = 0 ∧
    "\"abc".data.length = 4 ∧
    (StringLit ['"'] ⟨"\"abc".data, 0, ⟨"", 0⟩⟩ emptyResult).1.error.pos ≠ 4 := by
  decide

/-- C6 (amended): every segment scan that reaches end of input without
finding an unescaped closer — escape steps included, so escaped closers and
decoded escapes along the way are covered — fails with expectation equal to
the closer character, the error recorded through the sink at the current
cursor position, which still points at the opening delimiter since the
scanner only moves the cursor on success, and the cursor is not advanced. -/
theorem stringImpl_unterminated (ps : State) (node : Result) (closer : Char)
    (escapes : List (Char × Char))
    (hreach : ReachesEnd ps.input closer node.start)
    (herr : ps.error.pos ≤ ps.pos) :
    stringImpl ps node closer escapes =
      ({ ps with error := ⟨String.singleton closer, ps.pos⟩ }, node, false) := by
  unfold stringImpl stringImplGo
  rw [scanLoop_reachesEnd ps.input node.start closer escapes node.start hreach
    _ none]
  dsimp only
  unfold State.errorHere
  rw [if_pos herr]

/-- Witness for C6 on `"ab\"` — an unterminated literal whose only closer
occurrence is escaped: the scan steps over `a`, `b` and the escaped closer,
reaches end of input, and fails with `"` at the unmoved cursor. -/
theorem stringImpl_unterminated_witness :
    stringImpl ⟨"\"ab\\\"".data, 0, ⟨"", 0⟩⟩ (emptyResult.setStart 1) '"'
        _Escapes =
      (⟨"\"ab\\\"".data, 0, ⟨String.singleton '"', 0⟩⟩, emptyResult.setStart 1,
       false) :=
  stringImpl_unterminated ⟨"\"ab\\\"".data, 0, ⟨"", 0⟩⟩ (emptyResult.setStart 1)
    '"' _Escapes
    (ReachesEnd.ordinary 1 (by decide) (by decide) (by decide)
      (ReachesEnd.ordinary 2 (by decide) (by decide) (by decide)
        (ReachesEnd.escape 3 (by decide) (by decide) (by decide)
          (ReachesEnd.atEnd 5 (by decide)))))
    (by decide)

/-- C7: the delimiter matcher consults, in order, the initial/final-quote
pairs `_PiPf`, the two open/close punctuation pair classes `_PsPf` and
`_PsPe`, and the symmetric set `_SmSm` (only `<`↔`>`); a code point matched
by none of the tables is accepted as a symmetric delimiter (closer = opener)
exactly when the punctuation predicate holds of it or it is the literal `>`,
and is rejected otherwise; in particular `(` pairs with `)`, `"` with `"`,
and `/` with `/`. -/
theorem isValidRegexpDelimiter_spec :
    (∀ (isPunct : Char → Bool) (r c : Char),
        mapLookup _PiPf r = some c →
        IsValidRegexpDelimiter isPunct r = some c) ∧
    (∀ (isPunct : Char → Bool) (r c : Char),
        mapLookup _PiPf r = none → mapLookup _PsPf r = some c →
        IsValidRegexpDelimiter isPunct r = some c) ∧
    (∀ (isPunct : Char → Bool) (r c : Char),
        mapLookup _PiPf r = none → mapLookup _PsPf r = none →
        mapLookup _PsPe r = some c →
        IsValidRegexpDelimiter isPunct r = some c) ∧
    (∀ (isPunct : Char → Bool) (r c : Char),
        mapLookup _PiPf r = none → mapLookup _PsPf r = none →
        mapLookup _PsPe r = none → mapLookup _SmSm r = some c →
        IsValidRegexpDelimiter isPunct r = some c) ∧
    (∀ (isPunct : Char → Bool) (r : Char),
        mapLookup _PiPf r = none → mapLookup _PsPf r = none →
        mapLookup _PsPe r = none → mapLookup _SmSm r = none →
        IsValidRegexpDelimiter isPunct r =
          (if isPunct r || r == '>' then some r else none)) ∧
    IsValidRegexpDelimiterStd '(' = some ')' ∧
    IsValidRegexpDelimiterStd '"' = some '"' ∧
    IsValidRegexpDelimiterStd '/' = some '/' := by
  refine ⟨?_, ?_, ?_, ?_, ?_, by decide, by decide, by decide⟩
  · intro isPunct r c h1
    unfold IsValidRegexpDelimiter
    rw [h1]
  · intro isPunct r c h1 h2
    unfold IsValidRegexpDelimiter
    rw [h1, h2]
  · intro isPunct r c h1 h2 h3
    unfold IsValidRegexpDelimiter
    rw [h1, h2, h3]
  · intro isPunct r c h1 h2 h3 h4
    unfold IsValidRegexpDelimiter
    rw [h1, h2, h3, h4]
  · intro isPunct r h1 h2 h3 h4
    unfold IsValidRegexpDelimiter
    rw [h1, h2, h3, h4]

/-- Witness for C7: the fallback clause applied at `/` (a punctuation code
point outside every table) and at `z` (rejected). -/
theorem isValidRegexpDelimiter_spec_witness :
    IsValidRegexpDelimiter goIsPunct '/' = some '/' ∧
    IsValidRegexpDelimiter goIsPunct 'z' = none := by
  constructor
  · have h := isValidRegexpDelimiter_spec.2.2.2.2.1 goIsPunct '/'
      (by decide) (by decide) (by decide) (by decide)
    rw [h]; decide
  · have h := isValidRegexpDelimiter_spec.2.2.2.2.1 goIsPunct 'z'
      (by decide) (by decide) (by decide) (by decide)
    rw [h]; decide

/-- C8 counterexample: in `(foo)zb` the second opening delimiter is attempted
at position 5 (`z`, which the matcher rejects), yet the parser consumes it —
the final cursor is 6, one past the attempt — and the error is recorded at 6,
not at the attempted opening position 5. -/
theorem replaceLiteral_second_delim_counterexample :
    (UnicodeRegexpReplaceLiteral ⟨"(foo)zb".data, 0, ⟨"", 0⟩⟩
        emptyResult).1.pos = 6 ∧
    (UnicodeRegexpReplaceLiteral ⟨"(foo)zb".data, 0, ⟨"", 0⟩⟩
        emptyResult).1.error = ⟨"regexp delimiter", 6⟩ ∧
    "(foo)zb".data.getD 5 (Char.ofNat 0) = 'z' ∧
    IsValidRegexpDelimiterStd 'z' = none ∧
    (UnicodeRegexpReplaceLiteral ⟨"(foo)zb".data, 0, ⟨"", 0⟩⟩
        emptyResult).1.error.pos ≠ 5 := by
  decide

/-- C8 (amended): when the *first* opening code point of any literal form
fails delimiter validation the parser fails immediately: the cursor is
untouched and the error is recorded through the sink at the attempted opening
position.  The *second* opening delimiter of the asymmetric replace form,
however, is consumed before its validity is checked: on failure the cursor
has advanced one code point past the attempted opener and the error is
recorded there, not at the attempted position. -/
theorem delimiter_failure_spec :
    (∀ (allowedQuotes : List Char) (ps : State) (node : Result),
        stringContainsRune allowedQuotes
          (decodeRune (ps.input.drop ps.pos)).1 = false →
        StringLit allowedQuotes ps node =
          (ps.errorHere (String.mk allowedQuotes), node)) ∧
    (∀ (isValid : Char → Option Char) (escapes : List (Char × Char))
        (ps : State) (node : Result),
        isValid (decodeRune (ps.input.drop ps.pos)).1 = none →
        CustomStringLiteral isValid escapes ps node =
          (ps.errorHere "string delimiter", node)) ∧
    (∀ (isValid : Char → Option Char) (escapes : List (Char × Char))
        (ps : State) (node : Result),
        isValid (decodeRune (ps.input.drop ps.pos)).1 = none →
        CustomRegexpMatchLiteral isValid escapes ps node =
          (ps.errorHere "regexp delimiter", node)) ∧
    (∀ (isValid : Char → Option Char) (escapes : List (Char × Char))
        (ps : State) (node : Result),
        isValid (decodeRune (ps.input.drop ps.pos)).1 = none →
        CustomRegexpReplaceLiteral isValid escapes ps node =
          (ps.errorHere "regexp delimiter", node)) ∧
    ∀ (isValid : Char → Option Char) (escapes : List (Char × Char))
      (ps : State) (node : Result) (opener : Char) (size : Nat)
      (closer : Char) (ps1 : State) (child1 : Result),
      decodeRune (ps.input.drop ps.pos) = (opener, size) →
      isValid opener = some closer →
      stringImpl { ps with pos := ps.pos + size }
        (node.setStart (ps.pos + size)) closer escapes = (ps1, child1, true) →
      closer ≠ opener →
      IsValidRegexpDelimiterStd (decodeRune (ps1.input.drop ps1.pos)).1 =
        none →
      CustomRegexpReplaceLiteral isValid escapes ps node =
        (State.errorHere
          { ps1 with pos := ps1.pos + (decodeRune (ps1.input.drop ps1.pos)).2 }
          "regexp delimiter", node) := by
  refine ⟨?_, ?_, ?_, ?_, ?_⟩
  · intro allowedQuotes ps node h
    unfold StringLit
    rcases hd : decodeRune (ps.input.drop ps.pos) with ⟨opener, size⟩
    rw [hd] at h
    dsimp only at h ⊢
    rw [if_pos (by simp [h])]
  · intro isValid escapes ps node h
    unfold CustomStringLiteral
    rcases hd : decodeRune (ps.input.drop ps.pos) with ⟨opener, size⟩
    rw [hd] at h
    dsimp only at h ⊢
    rw [h]
  · intro isValid escapes ps node h
    unfold CustomRegexpMatchLiteral
    rcases hd : decodeRune (ps.input.drop ps.pos) with ⟨opener, size⟩
    rw [hd] at h
    dsimp only at h ⊢
    rw [h]
  · intro isValid escapes ps node h
    unfold CustomRegexpReplaceLiteral
    rcases hd : decodeRune (ps.input.drop ps.pos) with ⟨opener, size⟩
    rw [hd] at h
    dsimp only at h ⊢
    rw [h]
  · intro isValid escapes ps node opener size closer ps1 child1 hd hv hs1 hco
      hv2
    unfold CustomRegexpReplaceLiteral
    rw [hd]
    dsimp only
    rw [hv]
    dsimp only
    rw [hs1]
    dsimp only
    rw [if_neg (by simp)]
    rw [if_pos hco]
    rcases hd2 : decodeRune (ps1.input.drop ps1.pos) with ⟨opener2, size2⟩
    rw [hd2] at hv2
    dsimp only at hv2 ⊢
    rw [hv2]

/-- Witness for C8: the `z` in `"z` fails `StringLit`'s quote check without
consuming input, and the second-opener clause reproduces the `(a)=b`
failure with the cursor advanced to 4. -/
theorem delimiter_failure_spec_witness :
    StringLit ['"'] ⟨"z".data, 0, ⟨"", 0⟩⟩ emptyResult =
      (State.errorHere ⟨"z".data, 0, ⟨"", 0⟩⟩ (String.mk ['"']), emptyResult) ∧
    CustomRegexpReplaceLiteral IsValidRegexpDelimiterStd _Escapes
        ⟨"(a)=b".data, 0, ⟨"", 0⟩⟩ emptyResult =
      (State.errorHere ⟨"(a)=b".data, 4, ⟨"", 0⟩⟩ "regexp delimiter",
       emptyResult) := by
  constructor
  · exact delimiter_failure_spec.1 ['"'] ⟨"z".data, 0, ⟨"", 0⟩⟩ emptyResult
      (by decide)
  · exact delimiter_failure_spec.2.2.2.2 IsValidRegexpDelimiterStd _Escapes
      ⟨"(a)=b".data, 0, ⟨"", 0⟩⟩ emptyResult '(' 1 ')'
      ⟨"(a)=b".data, 3, ⟨"", 0⟩⟩ ((emptyResult.setStart 1).setToken ['a'])
      (by decide) (by decide) (by rfl) (by decide) (by decide)

/-- C9 counterexample: parsing `"a\uZZZZ` records the hex error at position
4 while the cursor is (and remains) 0 — the recorded error position exceeds
the cursor position at the time of recording, refuting the `≤`-invariant. -/
theorem errorPos_beyond_cursor_counterexample :
    (StringLit ['"'] ⟨"\"a\\uZZZZ".data, 0, ⟨"", 0⟩⟩
        emptyResult).1.error.pos = 4 ∧
    (StringLit ['"'] ⟨"\"a\\uZZZZ".data, 0, ⟨"", 0⟩⟩ emptyResult).1.pos = 0 ∧
    ¬ ((StringLit ['"'] ⟨"\"a\\uZZZZ".data, 0, ⟨"", 0⟩⟩
          emptyResult).1.error.pos ≤
        (StringLit ['"'] ⟨"\"a\\uZZZZ".data, 0, ⟨"", 0⟩⟩
          emptyResult).1.pos) := by
  decide

/-- C9 (amended): the sink (`ErrorHere`, modelled from the spec) overwrites
the stored error exactly when the new position is at or beyond the stored
one; but the direct `\u` error assignments record positions strictly beyond
the scan offset (bounded by the input length) while the cursor stays at its
pre-scan value on every failure — so a recorded position may exceed the
cursor at recording time. -/
theorem errorSink_spec :
    (∀ (ps : State) (exp : String),
        (ps.errorHere exp).error =
          if ps.error.pos ≤ ps.pos then ⟨exp, ps.pos⟩ else ps.error) ∧
    (∀ (input : List Char) (start : Nat) (closer : Char)
        (escapes : List (Char × Char)) (buf : Option (List Char))
        (e : Nat) (exp : String) (p : Nat),
        stringImplGo input start closer escapes buf e = .errAt exp p →
        e < p ∧ p ≤ input.length) ∧
    ∀ (ps : State) (node : Result) (closer : Char)
      (escapes : List (Char × Char)),
      (stringImpl ps node closer escapes).2.2 = false →
      (stringImpl ps node closer escapes).1.pos = ps.pos := by
  refine ⟨?_, ?_, ?_⟩
  · intro ps exp
    unfold State.errorHere
    split <;> rfl
  · intro input start closer escapes buf e exp p h
    exact scanLoop_errAt input start closer escapes _ buf e exp p h
  · intro ps node closer escapes
    unfold stringImpl
    cases hx : stringImplGo ps.input node.start closer escapes none
        node.start with
    | ok tok p => intro h; simp at h
    | errHere exp =>
      intro _
      dsimp only
      unfold State.errorHere
      split <;> rfl
    | errAt exp p => intro _; rfl

/-- Witness for C9 on `"a\uZZZZ`: the `\u` error lands at 4, strictly beyond
the scan offset 1 and within the 8-character input, while the failing parse
leaves the cursor at 0. -/
theorem errorSink_spec_witness :
    ((1 : Nat) < 4 ∧ 4 ≤ "\"a\\uZZZZ".data.length) ∧
    (stringImpl ⟨"\"a\\uZZZZ".data, 0, ⟨"", 0⟩⟩ (emptyResult.setStart 1) '"'
        _Escapes).1.pos = 0 := by
  constructor
  · exact errorSink_spec.2.1 "\"a\\uZZZZ".data 1 '"' _Escapes none 1
      "[a-f0-9]\x7b4\x7d" 4 (by decide)
  · exact errorSink_spec.2.2 ⟨"\"a\\uZZZZ".data, 0, ⟨"", 0⟩⟩
      (emptyResult.setStart 1) '"' _Escapes (by decide)

/-- C10: the replace-form parser consults the caller-supplied validity
function only on the first opening code point — its whole result is invariant
under replacing `isValid` by any function agreeing there, so the second
opener is never validated by the supplied function; concretely,
`(foo)[bar]` parses even under an `isValid` that rejects `[`, because the
second opener goes through the built-in `IsValidRegexpDelimiter`; and the
cursor is advanced past the second opening code point before the validity
result is checked, as the `(a)=b` run shows (attempt at 3, cursor and error
at 4). -/
theorem replaceLiteral_second_isValid_spec :
    (∀ (iv1 iv2 : Char → Option Char) (escapes : List (Char × Char))
        (ps : State) (node : Result),
        iv1 (decodeRune (ps.input.drop ps.pos)).1 =
          iv2 (decodeRune (ps.input.drop ps.pos)).1 →
        CustomRegexpReplaceLiteral iv1 escapes ps node =
          CustomRegexpReplaceLiteral iv2 escapes ps node) ∧
    (CustomRegexpReplaceLiteral
        (fun c => if c = '(' then some ')' else none) _Escapes
        ⟨"(foo)[bar]".data, 0, ⟨"", 0⟩⟩ emptyResult).2.child.map
      Result.token = [['f', 'o', 'o'], ['b', 'a', 'r']] ∧
    (fun c => if c = '(' then some ')' else none) '[' = none ∧
    (UnicodeRegexpReplaceLiteral ⟨"(a)=b".data, 0, ⟨"", 0⟩⟩
        emptyResult).1.pos = 4 ∧
    (UnicodeRegexpReplaceLiteral ⟨"(a)=b".data, 0, ⟨"", 0⟩⟩
        emptyResult).1.error.pos = 4 := by
  refine ⟨?_, by decide, by decide, by decide, by decide⟩
  intro iv1 iv2 escapes ps node h
  unfold CustomRegexpReplaceLiteral
  rcases hd : decodeRune (ps.input.drop ps.pos) with ⟨opener, size⟩
  rw [hd] at h
  dsimp only at h ⊢
  rw [h]

/-- Witness for C10's invariance clause: two validity functions agreeing on
`/` (the first opener of `/a/b/`) yield identical parses even though they
disagree elsewhere. -/
theorem replaceLiteral_second_isValid_spec_witness :
    CustomRegexpReplaceLiteral (fun c => if c = '/' then some '/' else none)
        _Escapes ⟨"/a/b/".data, 0, ⟨"", 0⟩⟩ emptyResult =
      CustomRegexpReplaceLiteral
        (fun c => if c = '/' then some '/' else some c) _Escapes
        ⟨"/a/b/".data, 0, ⟨"", 0⟩⟩ emptyResult :=
  replaceLiteral_second_isValid_spec.1
    (fun c => if c = '/' then some '/' else none)
    (fun c => if c = '/' then some '/' else some c) _Escapes
    ⟨"/a/b/".data, 0, ⟨"", 0⟩⟩ emptyResult (by decide)

end Goparsify
